import Mathlib

/-!
Verification of the Pyrr matrix33 and ray modules.

The numeric arrays of the source are embedded as functions over the real
numbers: a 3-component vector is a function from Fin 3 to the reals, a
3 by 3 matrix is a Matrix over Fin 3, and a ray is a function from Fin 2
to 3-component vectors (row 0 the origin, row 1 the direction).  Fallible
operations return Except values.  Each definition mirrors one function of
src/pyrr/matrix33.py or src/pyrr/ray.py; collaborator modules that are
not part of the source tree (the vector and quaternion helpers and the
numpy backend) are modelled from the specification and say so in their
doc comments.
-/

open scoped Classical

noncomputable section

namespace Pyrr

/-- Euclidean norm of a 3-component vector, as computed by np.linalg.norm. -/
def norm3 (v : Fin 3 → ℝ) : ℝ := Real.sqrt (v 0 ^ 2 + v 1 ^ 2 + v 2 ^ 2)

/-- Euclidean norm of a 4-component vector, as computed by np.linalg.norm. -/
def norm4 (v : Fin 4 → ℝ) : ℝ := Real.sqrt (v 0 ^ 2 + v 1 ^ 2 + v 2 ^ 2 + v 3 ^ 2)

/-- The numpy closeness test np.isclose at its default tolerances
rtol = 1e-5 and atol = 1e-8. -/
def np_isclose (a b : ℝ) : Prop := |a - b| ≤ 1 / 10 ^ 8 + 1 / 10 ^ 5 * |b|

/-- Row-vector times matrix product: np.dot applied to a shape (3,) vector
and a shape (3,3) matrix, spelled out componentwise. -/
def np_dot (v : Fin 3 → ℝ) (m : Matrix (Fin 3) (Fin 3) ℝ) : Fin 3 → ℝ :=
  fun j => v 0 * m 0 j + v 1 * m 1 j + v 2 * m 2 j

namespace vector

/-- Modelled from the spec: the Vector3 collaborator module (absent from
src/) provides normalization; a vector is normalised by dividing each
component by the Euclidean norm of the vector. -/
def normalise (v : Fin 3 → ℝ) : Fin 3 → ℝ := fun i => v i / norm3 v

end vector

namespace quaternion

/-- Modelled from the spec: the Quaternion collaborator module (absent
from src/) provides normalization; a quaternion is normalised by dividing
each component by its Euclidean norm. -/
def normalise (q : Fin 4 → ℝ) : Fin 4 → ℝ := fun i => q i / norm4 q

end quaternion

namespace matrix33

/-- The closed-form quaternion-to-matrix expression applied by
create_from_quaternion after its normalization guard (lines 102-145 of
matrix33.py). -/
def quat_to_matrix (q : Fin 4 → ℝ) : Matrix (Fin 3) (Fin 3) ℝ :=
  let x := q 0
  let y := q 1
  let z := q 2
  let w := q 3
  !![1 - 2 * (y ^ 2 + z ^ 2), 2 * (x * y + w * z), 2 * (x * z - w * y);
     2 * (x * y - w * z), 1 - 2 * (x ^ 2 + z ^ 2), 2 * (y * z + w * x);
     2 * (x * z + w * y), 2 * (y * z - w * x), 1 - 2 * (x ^ 2 + y ^ 2)]

/-- Embedding of matrix33.create_from_quaternion: if the norm of the
input is not close to 1 the quaternion is normalised first, then the
closed-form conversion is applied. -/
def create_from_quaternion (quat : Fin 4 → ℝ) : Matrix (Fin 3) (Fin 3) ℝ :=
  quat_to_matrix
    (if np_isclose (norm4 quat) 1 then quat else quaternion.normalise quat)

/-- Embedding of matrix33.create_from_inverse_of_quaternion, entry for
entry as written in the source (lines 158-201), with no normalization
guard.  Note that the source computes the entry in row 3, column 2 as
2 * (yz - wx) although its inline comment states 2 * (yz + wx). -/
def create_from_inverse_of_quaternion (quat : Fin 4 → ℝ) :
    Matrix (Fin 3) (Fin 3) ℝ :=
  let x := quat 0
  let y := quat 1
  let z := quat 2
  let w := quat 3
  !![1 - 2 * (y ^ 2 + z ^ 2), 2 * (x * y - w * z), 2 * (x * z + w * y);
     2 * (x * y + w * z), 1 - 2 * (x ^ 2 + z ^ 2), 2 * (y * z - w * x);
     2 * (x * z - w * y), 2 * (y * z - w * x), 1 - 2 * (x ^ 2 + y ^ 2)]

/-- Embedding of matrix33.create_from_x_rotation. -/
def create_from_x_rotation (theta : ℝ) : Matrix (Fin 3) (Fin 3) ℝ :=
  let cosT := Real.cos theta
  let sinT := Real.sin theta
  !![1, 0, 0;
     0, cosT, -sinT;
     0, sinT, cosT]

/-- Embedding of matrix33.create_from_y_rotation. -/
def create_from_y_rotation (theta : ℝ) : Matrix (Fin 3) (Fin 3) ℝ :=
  let cosT := Real.cos theta
  let sinT := Real.sin theta
  !![cosT, 0, sinT;
     0, 1, 0;
     -sinT, 0, cosT]

/-- Embedding of matrix33.create_from_z_rotation. -/
def create_from_z_rotation (theta : ℝ) : Matrix (Fin 3) (Fin 3) ℝ :=
  let cosT := Real.cos theta
  let sinT := Real.sin theta
  !![cosT, -sinT, 0;
     sinT, cosT, 0;
     0, 0, 1]

/-- Embedding of matrix33.apply_to_vector.  A 3-component vector is
multiplied on the right of the matrix as a row vector; a 4-component
vector is first divided by its last component, multiplied as a row
vector, and returned with fourth component 1.0; any other component
count raises ValueError. -/
def apply_to_vector (mat : Matrix (Fin 3) (Fin 3) ℝ) (vec : List ℝ) :
    Except String (List ℝ) :=
  match vec with
  | [x, y, z] =>
    let r := np_dot ![x, y, z] mat
    Except.ok [r 0, r 1, r 2]
  | [x, y, z, w] =>
    let vec3 := np_dot ![x / w, y / w, z / w] mat
    Except.ok [vec3 0, vec3 1, vec3 2, 1]
  | _ => Except.error "Vector size unsupported"

/-- Modelled from the spec: the numpy backend routine np.linalg.inv
(external to the repository) raises a singular-matrix error exactly when
the matrix has no well-defined inverse, and otherwise returns the matrix
inverse. -/
def np_linalg_inv (m : Matrix (Fin 3) (Fin 3) ℝ) :
    Except String (Matrix (Fin 3) (Fin 3) ℝ) :=
  if m.det = 0 then Except.error "Singular matrix" else Except.ok m⁻¹

/-- Embedding of matrix33.inverse, a direct wrapper around np.linalg.inv. -/
def inverse (mat : Matrix (Fin 3) (Fin 3) ℝ) :
    Except String (Matrix (Fin 3) (Fin 3) ℝ) :=
  np_linalg_inv mat

/-- Embedding of matrix33.create_direction_scale, entry for entry as
written in the source (lines 366-400).  The source binds the normalised
direction to a local variable inside the branch taken when the norm of
the direction is not close to 1, and never reads that variable; the
matrix entries are built from the raw direction components.  Note that
the source computes the entry in row 1, column 2 with the second
component squared, and the entry in row 2, column 2 without squaring the
second component. -/
def create_direction_scale (direction : Fin 3 → ℝ) (scale : ℝ) :
    Matrix (Fin 3) (Fin 3) ℝ :=
  let _vector3 : Fin 3 → ℝ :=
    if np_isclose (norm3 direction) 1 then direction
    else vector.normalise direction
  let scaleMinus1 := scale - 1
  !![1 + scaleMinus1 * (direction 0) ^ 2,
     scaleMinus1 * direction 0 * (direction 1) ^ 2,
     scaleMinus1 * direction 0 * direction 2;
     scaleMinus1 * direction 0 * direction 1,
     1 + scaleMinus1 * direction 1,
     scaleMinus1 * direction 1 * direction 2;
     scaleMinus1 * direction 0 * direction 2,
     scaleMinus1 * direction 1 * direction 2,
     1 + scaleMinus1 * (direction 2) ^ 2]

/-- The closed-form directional-scale matrix as a function of the three
raw direction components and the scale factor, exactly the expression
the source constructs (used to state that the normalised direction is
never substituted back). -/
def direction_scale_formula (nx ny nz k : ℝ) : Matrix (Fin 3) (Fin 3) ℝ :=
  !![1 + (k - 1) * nx ^ 2, (k - 1) * nx * ny ^ 2, (k - 1) * nx * nz;
     (k - 1) * nx * ny, 1 + (k - 1) * ny, (k - 1) * ny * nz;
     (k - 1) * nx * nz, (k - 1) * ny * nz, 1 + (k - 1) * nz ^ 2]

end matrix33

namespace ray

/-- Embedding of ray.create: the origin together with the normalised
direction. -/
def create (start : Fin 3 → ℝ) (direction : Fin 3 → ℝ) :
    Fin 2 → Fin 3 → ℝ :=
  ![start, vector.normalise direction]

/-- Embedding of ray.create_from_line: the first endpoint together with
the normalised endpoint difference. -/
def create_from_line (line : Fin 2 → Fin 3 → ℝ) : Fin 2 → Fin 3 → ℝ :=
  ![line 0, vector.normalise (fun i => line 1 i - line 0 i)]

/-- Embedding of ray.invert: a copy of the ray with the direction row
multiplied by -1. -/
def invert (r : Fin 2 → Fin 3 → ℝ) : Fin 2 → Fin 3 → ℝ :=
  ![r 0, fun i => r 1 i * (-1)]

/-- Embedding of ray.start: a copy of row 0. -/
def start (r : Fin 2 → Fin 3 → ℝ) : Fin 3 → ℝ := r 0

/-- Embedding of ray.direction: a copy of row 1. -/
def direction (r : Fin 2 → Fin 3 → ℝ) : Fin 3 → ℝ := r 1

end ray

/-- C5: with the unit direction (1,0,0) and scale factor 0, the
directional-scale matrix flattens the x-component of (5,2,3) to 0 and
leaves the y and z components unchanged. -/
theorem direction_scale_x_flattens :
    matrix33.apply_to_vector (matrix33.create_direction_scale ![1, 0, 0] 0)
      [5, 2, 3] = Except.ok [0, 2, 3] := by
  simp [matrix33.apply_to_vector, matrix33.create_direction_scale, np_dot,
    Matrix.vecHead, Matrix.vecTail]

/-- C3 counterexample: at theta = pi/2 the spec formula (0, cos theta,
sin theta) predicts (0,0,1), but the row-vector product of (0,1,0) with
the x-rotation matrix is (0,0,-1). -/
theorem rotation_x_basis_spec_counterexample :
    matrix33.apply_to_vector (matrix33.create_from_x_rotation (Real.pi / 2))
        [0, 1, 0]
      ≠ Except.ok [0, Real.cos (Real.pi / 2), Real.sin (Real.pi / 2)] := by
  simp [matrix33.apply_to_vector, matrix33.create_from_x_rotation, np_dot,
    Matrix.vecHead, Matrix.vecTail, Real.cos_pi_div_two, Real.sin_pi_div_two]
  norm_num

/-- C3 amended: under the row-vector convention of apply_to_vector, the
basis images of the axis rotations are (0, cos theta, -sin theta),
(-sin theta, 0, cos theta) and (cos theta, -sin theta, 0): the spec
formulas hold with theta replaced by -theta. -/
theorem rotation_basis_images (theta : ℝ) :
    matrix33.apply_to_vector (matrix33.create_from_x_rotation theta) [0, 1, 0]
      = Except.ok [0, Real.cos theta, -Real.sin theta] ∧
    matrix33.apply_to_vector (matrix33.create_from_y_rotation theta) [0, 0, 1]
      = Except.ok [-Real.sin theta, 0, Real.cos theta] ∧
    matrix33.apply_to_vector (matrix33.create_from_z_rotation theta) [1, 0, 0]
      = Except.ok [Real.cos theta, -Real.sin theta, 0] := by
  refine ⟨?_, ?_, ?_⟩ <;>
    simp [matrix33.apply_to_vector, matrix33.create_from_x_rotation,
      matrix33.create_from_y_rotation, matrix33.create_from_z_rotation,
      np_dot, Matrix.vecHead, Matrix.vecTail]

/-- C6: for a 4-component vector with nonzero fourth component, the
result of apply_to_vector is the homogeneous-divided 3-vector
right-multiplied by the matrix as a row vector, with fourth component
exactly 1. -/
theorem apply_to_vector_homogeneous (mat : Matrix (Fin 3) (Fin 3) ℝ)
    (v0 v1 v2 v3 : ℝ) (h : v3 ≠ 0) :
    matrix33.apply_to_vector mat [v0, v1, v2, v3]
      = Except.ok [np_dot ![v0 / v3, v1 / v3, v2 / v3] mat 0,
          np_dot ![v0 / v3, v1 / v3, v2 / v3] mat 1,
          np_dot ![v0 / v3, v1 / v3, v2 / v3] mat 2, 1] := rfl

/-- Witness for C6 at the matrix with rows (1,2,3), (4,5,6), (7,8,9)
and the vector (2,4,6,2). -/
theorem apply_to_vector_homogeneous_witness :
    matrix33.apply_to_vector !![1, 2, 3; 4, 5, 6; 7, 8, 9] [2, 4, 6, 2]
      = Except.ok [30, 36, 42, 1] := by
  rw [apply_to_vector_homogeneous !![1, 2, 3; 4, 5, 6; 7, 8, 9] 2 4 6 2
    (by norm_num)]
  simp [np_dot, Matrix.vecHead, Matrix.vecTail]
  norm_num

/-- C7: apply_to_vector returns an error exactly when the component
count of the vector is neither 3 nor 4. -/
theorem apply_to_vector_error_iff (mat : Matrix (Fin 3) (Fin 3) ℝ)
    (v : List ℝ) :
    (∃ e, matrix33.apply_to_vector mat v = Except.error e) ↔
      v.length ≠ 3 ∧ v.length ≠ 4 := by
  rcases v with _ | ⟨a, _ | ⟨b, _ | ⟨c, _ | ⟨d, _ | ⟨e, t⟩⟩⟩⟩⟩ <;>
    simp [matrix33.apply_to_vector]

/-- C2: at the unit quaternion (1/2, 1/2, 1/2, 1/2) the transpose of
create_from_quaternion differs from create_from_inverse_of_quaternion:
the entry in row 3, column 2 of the transpose is 2(yz + wx) = 1, while
the inverse construction computes 2(yz - wx) = 0 there, contradicting
the inline comment of the source at that entry. -/
theorem quaternion_inverse_transpose_mismatch :
    norm4 ![1 / 2, 1 / 2, 1 / 2, 1 / 2] = 1 ∧
    (matrix33.create_from_quaternion ![1 / 2, 1 / 2, 1 / 2, 1 / 2]).transpose 2 1
      = 1 ∧
    matrix33.create_from_inverse_of_quaternion ![1 / 2, 1 / 2, 1 / 2, 1 / 2] 2 1
      = 0 ∧
    (matrix33.create_from_quaternion ![1 / 2, 1 / 2, 1 / 2, 1 / 2]).transpose
      ≠ matrix33.create_from_inverse_of_quaternion ![1 / 2, 1 / 2, 1 / 2, 1 / 2] := by
  have hn : norm4 ![1 / 2, 1 / 2, 1 / 2, 1 / 2] = 1 := by
    simp [norm4, Matrix.vecHead, Matrix.vecTail]
    norm_num
  have hguard : matrix33.create_from_quaternion ![1 / 2, 1 / 2, 1 / 2, 1 / 2]
      = matrix33.quat_to_matrix ![1 / 2, 1 / 2, 1 / 2, 1 / 2] := by
    unfold matrix33.create_from_quaternion
    rw [hn, if_pos]
    unfold np_isclose
    norm_num
  have h1 : (matrix33.create_from_quaternion
      ![1 / 2, 1 / 2, 1 / 2, 1 / 2]).transpose 2 1 = 1 := by
    rw [Matrix.transpose_apply, hguard]
    simp [matrix33.quat_to_matrix, Matrix.vecHead, Matrix.vecTail]
    norm_num
  have h2 : matrix33.create_from_inverse_of_quaternion
      ![1 / 2, 1 / 2, 1 / 2, 1 / 2] 2 1 = 0 := by
    simp [matrix33.create_from_inverse_of_quaternion, Matrix.vecHead,
      Matrix.vecTail]
  refine ⟨hn, h1, h2, fun h => ?_⟩
  have h3 := congrFun (congrFun h 2) 1
  rw [h1, h2] at h3
  exact one_ne_zero h3

/-- C1: the direction (3/5, 4/5, 0) has unit norm, yet with scale
factor 0 the directional-scale matrix does not project onto the plane
normal to it: the direction itself is mapped to (0, -44/625, 0) instead
of the zero vector predicted by the claim, because the entry in row 1,
column 2 multiplies by the square of the second component and the entry
in row 2, column 2 omits that square. -/
theorem direction_scale_breaks_projection :
    norm3 ![3 / 5, 4 / 5, 0] = 1 ∧
    matrix33.apply_to_vector
        (matrix33.create_direction_scale ![3 / 5, 4 / 5, 0] 0)
        [3 / 5, 4 / 5, 0]
      = Except.ok [0, -(44 / 625), 0] ∧
    matrix33.apply_to_vector
        (matrix33.create_direction_scale ![3 / 5, 4 / 5, 0] 0)
        [3 / 5, 4 / 5, 0]
      ≠ Except.ok [0, 0, 0] := by
  have hn : norm3 ![3 / 5, 4 / 5, 0] = 1 := by
    simp [norm3, Matrix.vecHead, Matrix.vecTail]
    norm_num
  have hval : matrix33.apply_to_vector
      (matrix33.create_direction_scale ![3 / 5, 4 / 5, 0] 0)
      [3 / 5, 4 / 5, 0] = Except.ok [0, -(44 / 625), 0] := by
    simp [matrix33.apply_to_vector, matrix33.create_direction_scale, np_dot,
      Matrix.vecHead, Matrix.vecTail]
    norm_num
  refine ⟨hn, hval, ?_⟩
  rw [hval]
  intro h
  norm_num at h

/-- C4: the directional-scale matrix is built from the raw direction
components for every direction and scale, unit length or not; at the
non-unit direction (2,0,0) with scale 0 the result uses the raw first
component 2, giving top-left entry -3, and differs from the formula
evaluated on the normalised components. -/
theorem direction_scale_uses_raw_components :
    (∀ (d : Fin 3 → ℝ) (k : ℝ),
      matrix33.create_direction_scale d k
        = matrix33.direction_scale_formula (d 0) (d 1) (d 2) k) ∧
    matrix33.create_direction_scale ![2, 0, 0] 0
      = !![(-3 : ℝ), 0, 0; 0, 1, 0; 0, 0, 1] ∧
    matrix33.create_direction_scale ![2, 0, 0] 0
      ≠ matrix33.direction_scale_formula (vector.normalise ![2, 0, 0] 0)
          (vector.normalise ![2, 0, 0] 1) (vector.normalise ![2, 0, 0] 2) 0 := by
  have hraw : ∀ (d : Fin 3 → ℝ) (k : ℝ),
      matrix33.create_direction_scale d k
        = matrix33.direction_scale_formula (d 0) (d 1) (d 2) k := by
    intro d k
    rfl
  have hconc : matrix33.create_direction_scale ![2, 0, 0] 0
      = !![(-3 : ℝ), 0, 0; 0, 1, 0; 0, 0, 1] := by
    ext i j
    fin_cases i <;> fin_cases j <;>
      simp [matrix33.create_direction_scale, Matrix.vecHead, Matrix.vecTail] <;>
      norm_num
  have hnormed : vector.normalise ![2, 0, 0] 0 = 1 := by
    have h2 : norm3 ![(2:ℝ), 0, 0] = 2 := by
      simp [norm3, Matrix.vecHead, Matrix.vecTail]
    simp [vector.normalise, h2]
  refine ⟨hraw, hconc, fun h => ?_⟩
  have h00 := congrFun (congrFun h 0) 0
  rw [hconc] at h00
  norm_num [matrix33.direction_scale_formula, hnormed, Matrix.vecHead,
    Matrix.vecTail] at h00

/-- C8: inverse raises a singular-matrix error exactly when the
determinant is zero, and otherwise returns the matrix inverse, a
two-sided inverse of the input. -/
theorem inverse_singular_iff (m : Matrix (Fin 3) (Fin 3) ℝ) :
    ((∃ e, matrix33.inverse m = Except.error e) ↔ m.det = 0) ∧
    (m.det ≠ 0 →
      matrix33.inverse m = Except.ok m⁻¹ ∧ m⁻¹ * m = 1 ∧ m * m⁻¹ = 1) := by
  constructor
  · unfold matrix33.inverse matrix33.np_linalg_inv
    by_cases h : m.det = 0 <;> simp [h]
  · intro h
    refine ⟨?_, Matrix.nonsing_inv_mul m (isUnit_iff_ne_zero.2 h),
      Matrix.mul_nonsing_inv m (isUnit_iff_ne_zero.2 h)⟩
    unfold matrix33.inverse matrix33.np_linalg_inv
    rw [if_neg h]

/-- Witness for C8: the all-zero matrix raises the singular-matrix
error, and the invertible diagonal matrix with entries 2, 1, 1 is
inverted without raising. -/
theorem inverse_singular_iff_witness :
    (∃ e, matrix33.inverse (0 : Matrix (Fin 3) (Fin 3) ℝ) = Except.error e) ∧
    matrix33.inverse !![(2 : ℝ), 0, 0; 0, 1, 0; 0, 0, 1]
      = Except.ok (!![(2 : ℝ), 0, 0; 0, 1, 0; 0, 0, 1])⁻¹ ∧
    (!![(2 : ℝ), 0, 0; 0, 1, 0; 0, 0, 1])⁻¹
        * !![(2 : ℝ), 0, 0; 0, 1, 0; 0, 0, 1] = 1 := by
  have hdet : (!![(2 : ℝ), 0, 0; 0, 1, 0; 0, 0, 1]).det ≠ 0 := by
    simp [Matrix.det_fin_three, Matrix.vecHead, Matrix.vecTail]
  refine ⟨(inverse_singular_iff 0).1.mpr ?_,
    ((inverse_singular_iff _).2 hdet).1, ((inverse_singular_iff _).2 hdet).2.1⟩
  simp [Matrix.det_fin_three]

/-- The norm of a 3-component vector vanishes exactly when every
component vanishes. -/
lemma norm3_eq_zero_iff (d : Fin 3 → ℝ) :
    norm3 d = 0 ↔ d 0 = 0 ∧ d 1 = 0 ∧ d 2 = 0 := by
  unfold norm3
  rw [Real.sqrt_eq_zero (by positivity)]
  constructor
  · intro h
    refine ⟨?_, ?_, ?_⟩ <;>
    · rw [← pow_eq_zero_iff (n := 2) (by norm_num)]
      nlinarith [sq_nonneg (d 0), sq_nonneg (d 1), sq_nonneg (d 2)]
  · rintro ⟨h0, h1, h2⟩
    rw [h0, h1, h2]
    ring

/-- Normalising a vector of nonzero norm yields a vector of norm one. -/
lemma norm3_normalise_eq_one (d : Fin 3 → ℝ) (hd : norm3 d ≠ 0) :
    norm3 (vector.normalise d) = 1 := by
  have hs : (0:ℝ) ≤ d 0 ^ 2 + d 1 ^ 2 + d 2 ^ 2 := by positivity
  have hs0 : d 0 ^ 2 + d 1 ^ 2 + d 2 ^ 2 ≠ 0 := by
    intro h
    exact hd (by unfold norm3; rw [h, Real.sqrt_zero])
  show Real.sqrt ((d 0 / norm3 d) ^ 2 + (d 1 / norm3 d) ^ 2
      + (d 2 / norm3 d) ^ 2) = 1
  rw [show (d 0 / norm3 d) ^ 2 + (d 1 / norm3 d) ^ 2 + (d 2 / norm3 d) ^ 2
      = (d 0 ^ 2 + d 1 ^ 2 + d 2 ^ 2) / norm3 d ^ 2 by ring]
  unfold norm3
  rw [Real.sq_sqrt hs, div_self hs0, Real.sqrt_one]

/-- C9: ray.create returns the origin paired with the normalised
direction, whose norm is one whenever the direction has nonzero norm;
ray.create_from_line returns the first endpoint paired with the
normalised endpoint difference, whose norm is one whenever the endpoints
differ. -/
theorem ray_constructors_unit_direction (s d : Fin 3 → ℝ)
    (l : Fin 2 → Fin 3 → ℝ) (hd : norm3 d ≠ 0) (hl : l 1 ≠ l 0) :
    ray.create s d = ![s, vector.normalise d] ∧
    norm3 (ray.create s d 1) = 1 ∧
    ray.create_from_line l = ![l 0, vector.normalise fun i => l 1 i - l 0 i] ∧
    norm3 (ray.create_from_line l 1) = 1 := by
  have hdl : norm3 (fun i => l 1 i - l 0 i) ≠ 0 := by
    intro h
    obtain ⟨h0, h1, h2⟩ := (norm3_eq_zero_iff _).1 h
    apply hl
    funext i
    fin_cases i
    · exact sub_eq_zero.1 h0
    · exact sub_eq_zero.1 h1
    · exact sub_eq_zero.1 h2
  exact ⟨rfl, norm3_normalise_eq_one d hd, rfl, norm3_normalise_eq_one _ hdl⟩

/-- Witness for C9: the ray from the origin along (3,4,0) and the ray
through the segment from (1,1,1) to (1,1,3) both carry unit-norm
directions. -/
theorem ray_constructors_unit_direction_witness :
    norm3 (ray.create ![0, 0, 0] ![3, 4, 0] 1) = 1 ∧
    norm3 (ray.create_from_line ![![1, 1, 1], ![1, 1, 3]] 1) = 1 := by
  have hd : norm3 ![(3:ℝ), 4, 0] ≠ 0 := by
    rw [Ne, norm3_eq_zero_iff]
    norm_num
  have hl : (![![1, 1, 1], ![1, 1, 3]] : Fin 2 → Fin 3 → ℝ) 1
      ≠ ![![1, 1, 1], ![1, 1, 3]] 0 := by
    intro h
    have h2 := congrFun h 2
    norm_num [Matrix.vecHead, Matrix.vecTail] at h2
  exact ⟨(ray_constructors_unit_direction ![0, 0, 0] ![3, 4, 0]
      ![![1, 1, 1], ![1, 1, 3]] hd hl).2.1,
    (ray_constructors_unit_direction ![0, 0, 0] ![3, 4, 0]
      ![![1, 1, 1], ![1, 1, 3]] hd hl).2.2.2⟩

/-- C10: ray.invert keeps the origin row, negates the direction row
componentwise, and preserves the norm of the direction; ray.start and
ray.direction return row 0 and row 1 of their argument. -/
theorem invert_negates_direction (r : Fin 2 → Fin 3 → ℝ) :
    ray.invert r 0 = r 0 ∧
    (∀ i, ray.invert r 1 i = -(r 1 i)) ∧
    ray.start r = r 0 ∧
    ray.direction r = r 1 ∧
    ray.start (ray.invert r) = r 0 ∧
    (∀ i, ray.direction (ray.invert r) i = -(r 1 i)) ∧
    norm3 (ray.direction (ray.invert r)) = norm3 (ray.direction r) := by
  refine ⟨rfl, fun i => by simp [ray.invert], rfl, rfl, rfl,
    fun i => by simp [ray.invert, ray.direction], ?_⟩
  show norm3 (fun i => r 1 i * (-1)) = norm3 (r 1)
  unfold norm3
  congr 1
  ring

end Pyrr
